import Mathlib

/-!
Verification development for the onetoolsbox backend.

This file gives a shallow embedding, in Lean 4, of the caption-processing
pipeline of `app/services/youtube_caption_service.py` (time-code decoding,
the three subtitle parsers, the cleaner/deduplicator, the in-memory cache
layer of `extract_captions`) and of the URL shortener of
`app/services/url_shortener_service.py` (`shorten_url`, `expand_url`).

Modelling conventions:
* Python `float` values are modelled as `ℚ` (every numeric literal the
  theorems touch is exactly representable, and the arithmetic performed by
  the code — sums and products with 60, 3600, 1000 — is exact on them).
* Fallible Python code (a raised `ValueError` / `IndexError` escaping a
  function) is modelled with `Option`: `none` means the call raised.
* External collaborators (the `yt_dlp` library, `requests`, `hashlib`,
  `xml.etree`, `json`, the filesystem, `random`) are not part of this
  repository; their outputs are taken as inputs of the embedded functions
  (e.g. the XML parser is modelled on the list of `<text>` elements that
  `ElementTree.findall` returns, the random code generator on the stream
  of candidate codes the RNG would produce).
* Python dictionaries are modelled as association lists whose keys are
  unique; strings are Lean `String`s and `str.strip`/`str.split`/
  `' '.join` are modelled by the `py*` helpers below.
-/

/-- Python whitespace predicate (`str.isspace` on the ASCII range): the
characters recognised by `str.strip()`, `str.split()` and the regex `\s`. -/
def pyIsSpace (c : Char) : Bool :=
  c = ' ' || c = '\t' || c = '\n' || c = '\r' || c = '\x0b' || c = '\x0c'

/-- Python `str.strip()` on a character list: drop whitespace from both ends. -/
def pyStripList (l : List Char) : List Char :=
  ((l.dropWhile pyIsSpace).reverse.dropWhile pyIsSpace).reverse

/-- Python `str.strip()`. -/
def pyStrip (s : String) : String :=
  ⟨pyStripList s.data⟩

/-- Split a character list at every character satisfying `p`, keeping
empty fields (the behaviour of Python `str.split(sep)` for a one-character
separator, generalised to a predicate). -/
def splitPredGo (p : Char → Bool) : List Char → List Char → List (List Char)
  | acc, [] => [acc.reverse]
  | acc, c :: cs => if p c then acc.reverse :: splitPredGo p [] cs else splitPredGo p (c :: acc) cs

/-- Python `str.split()` with no argument: split on whitespace runs,
discarding empty fields. -/
def pySplitWs (s : String) : List String :=
  ((splitPredGo pyIsSpace [] s.data).filter (fun t => ¬ t.isEmpty)).map (fun l => ⟨l⟩)

/-- Splitter on a (non-empty) separator string, fuelled; fuel at least the
length of the input guarantees complete processing. -/
def splitOnListGo (sep : List Char) : Nat → List Char → List Char → List (List Char)
  | 0, acc, l => [acc.reverse ++ l]
  | _ + 1, acc, [] => [acc.reverse]
  | fuel + 1, acc, c :: cs =>
    if sep.isPrefixOf (c :: cs) then
      acc.reverse :: splitOnListGo sep fuel [] (List.drop sep.length (c :: cs))
    else
      splitOnListGo sep fuel (c :: acc) cs

/-- Python `s.split(sep)` for a non-empty separator `sep`: fields between
non-overlapping occurrences of `sep`, empty fields kept. -/
def pySplit (sep s : String) : List String :=
  (splitOnListGo sep.data (s.data.length + 1) [] s.data).map (fun l => ⟨l⟩)

/-- Python `s.replace(a, b)` for one-character `a`, `b`. -/
def pyReplaceChar (a b : Char) (s : String) : String :=
  ⟨s.data.map (fun c => if c = a then b else c)⟩

/-- Python `sep.join(parts)`. -/
def pyJoin (sep : String) : List String → String
  | [] => ""
  | [a] => a
  | a :: rest => a ++ sep ++ pyJoin sep rest

/-- Python `needle in s` substring test (for non-empty `needle`). -/
def containsSubstr (needle s : String) : Bool :=
  (pySplit needle s).length != 1

/-- Python `s.startswith(p)`. -/
def pyStartsWith (p s : String) : Bool :=
  p.data.isPrefixOf s.data

/-- Python `s.endswith(p)`. -/
def pyEndsWith (p s : String) : Bool :=
  p.data.isSuffixOf s.data

/-- Value of a list of decimal digit characters. -/
def digitsToNat (l : List Char) : Nat :=
  l.foldl (fun a c => a * 10 + (c.toNat - 48)) 0

/-- Python `float(s)` on the decimal fragment of its grammar: optional
surrounding whitespace, an optional sign, then digits with an optional
decimal point (at least one digit overall).  `none` models a raised
`ValueError`.  The exotic inputs Python additionally accepts (`inf`,
`nan`, exponents, underscores) do not occur in subtitle time codes and
are not modelled. -/
def pyParseFloat (s : String) : Option ℚ :=
  let l := pyStripList s.data
  let (neg, l₁) :=
    match l with
    | '-' :: r => (true, r)
    | '+' :: r => (false, r)
    | r => (false, r)
  let ip := l₁.takeWhile Char.isDigit
  let rest := l₁.drop ip.length
  let mk : ℚ → Option ℚ := fun q => some (if neg then -q else q)
  match rest with
  | [] => if ip.isEmpty then none else mk (digitsToNat ip)
  | '.' :: r =>
    let fp := r.takeWhile Char.isDigit
    let rest₂ := r.drop fp.length
    if rest₂.isEmpty then
      if ip.isEmpty && fp.isEmpty then none
      else mk ((digitsToNat ip : ℚ) + (digitsToNat fp : ℚ) / (10 : ℚ) ^ fp.length)
    else none
  | _ => none

/-- Embedding of `YouTubeCaptionService._vtt_time_to_seconds`
(`youtube_caption_service.py`, lines 330–351): replace `,` by `.`, split
on `:`, then three parts are hours:minutes:seconds, two parts are
minutes:seconds, anything else parses its first part as bare seconds.
`none` models the `ValueError` raised by a failed `float` parse. -/
def vtt_time_to_seconds (time_str : String) : Option ℚ :=
  match pySplit ":" (pyReplaceChar ',' '.' time_str) with
  | [h, m, s] => do
    let hq ← pyParseFloat h
    let mq ← pyParseFloat m
    let sq ← pyParseFloat s
    some (hq * 3600 + mq * 60 + sq)
  | [m, s] => do
    let mq ← pyParseFloat m
    let sq ← pyParseFloat s
    some (mq * 60 + sq)
  | other => pyParseFloat (other.headD "")

/-- One parsed caption segment: the dictionaries
`{start_time, end_time, duration, text}` built by the three parsers. -/
structure Caption where
  start_time : ℚ
  end_time : ℚ
  duration : ℚ
  text : String
  deriving DecidableEq, Repr

/-- Inner text-gathering loop of `_parse_vtt_captions` (lines 233–237):
starting after a timestamp line, collect `lines[i].strip()` while the line
is non-blank after stripping and does not contain an arrow; return the
collected text lines and the remaining lines starting at the terminator. -/
def vttGatherText : List String → List String × List String
  | [] => ([], [])
  | l :: rest =>
    if pyStrip l ≠ "" ∧ containsSubstr "-->" l = false then
      (pyStrip l :: (vttGatherText rest).1, (vttGatherText rest).2)
    else
      ([], l :: rest)

/-- Main loop of `_parse_vtt_captions` (lines 220–249), fuelled by the
number of lines (each iteration consumes at least one line).  A line whose
stripped form contains an arrow and splits into exactly two parts yields a
cue: both timestamps are decoded (`none` models the uncaught `ValueError`
of a failed `float` parse, and the uncaught `IndexError` when nothing
follows the arrow), the following non-blank lines are joined with single
spaces, and the cue is kept when its text is non-empty.  After a cue the
line that terminated the text gathering is skipped (`i += 1`). -/
def parseVttLoop : Nat → List String → Option (List Caption)
  | 0, _ => some []
  | _ + 1, [] => some []
  | fuel + 1, l :: rest =>
    if containsSubstr "-->" (pyStrip l) then
      if (pySplit "-->" (pyStrip l)).length = 2 then
        match vtt_time_to_seconds (pyStrip ((pySplit "-->" (pyStrip l)).getD 0 "")) with
        | none => none
        | some st =>
          match (pySplitWs (pyStrip ((pySplit "-->" (pyStrip l)).getD 1 ""))).head? with
          | none => none
          | some tok =>
            match vtt_time_to_seconds tok with
            | none => none
            | some et =>
              match parseVttLoop fuel ((vttGatherText rest).2.drop 1) with
              | none => none
              | some tail =>
                some (if pyJoin " " (vttGatherText rest).1 ≠ "" then
                  ⟨st, et, et - st, pyJoin " " (vttGatherText rest).1⟩ :: tail
                else tail)
      else parseVttLoop fuel rest
    else parseVttLoop fuel rest

/-- Embedding of `YouTubeCaptionService._parse_vtt_captions`
(lines 206–252) on the already-split line list. -/
def parse_vtt_lines (lines : List String) : Option (List Caption) :=
  parseVttLoop lines.length lines

/-- Embedding of `YouTubeCaptionService._parse_vtt_captions`
(lines 206–252): split the payload on newlines and run the cue loop. -/
def parse_vtt_captions (vtt_content : String) : Option (List Caption) :=
  parse_vtt_lines (pySplit "\n" vtt_content)

/-- One `<text>` XML element as returned by `ElementTree.findall('.//text')`
in `_parse_srv_captions`: its `start` and `dur` attributes (absent
modelled as `none`) and its body text (`None` modelled as `none`). -/
structure SrvTextElem where
  start : Option String
  dur : Option String
  text : Option String
  deriving DecidableEq, Repr

/-- Model of `float(elem.get(attr, 0))`: a missing attribute defaults to
`0`; a present attribute is parsed, a failed parse raising `ValueError`. -/
def attrFloat : Option String → Option ℚ
  | none => some 0
  | some s => pyParseFloat s

/-- Embedding of `YouTubeCaptionService._parse_srv_captions`
(lines 254–288) on the list of `<text>` elements delivered by the XML
library (`ET.fromstring` and `findall` are external collaborators).  The
element body `text or ''` maps `None` to the empty string; an element with
empty text produces no segment; `none` models the uncaught `ValueError`
of a failed attribute parse. -/
def parse_srv_captions : List SrvTextElem → Option (List Caption)
  | [] => some []
  | e :: rest =>
    match attrFloat e.start with
    | none => none
    | some st =>
      match attrFloat e.dur with
      | none => none
      | some dur =>
        match parse_srv_captions rest with
        | none => none
        | some tail =>
          some (if e.text.getD "" ≠ "" then
            ⟨st, st + dur, dur, e.text.getD ""⟩ :: tail
          else tail)

/-- One element of an event's `segs` array in the JSON3 format. -/
structure Json3Seg where
  utf8 : Option String
  deriving DecidableEq, Repr

/-- One element of the top-level `events` array of a JSON3 payload:
`tStartMs` and `dDurationMs` (absent modelled as `none`, JSON numbers as
`ℚ`) and the optional `segs` array (`none` when the key is absent). -/
structure Json3Event where
  tStartMs : Option ℚ
  dDurationMs : Option ℚ
  segs : Option (List Json3Seg)
  deriving DecidableEq, Repr

/-- Embedding of `YouTubeCaptionService._parse_json3_captions`
(lines 290–328) on the decoded `events` array (`json.loads` is an
external collaborator).  Only events with a `segs` key are considered;
the text is the concatenation of the `utf8` fields; an event whose
concatenated text is empty produces no segment. -/
def parse_json3_captions : List Json3Event → List Caption
  | [] => []
  | e :: rest =>
    match e.segs with
    | none => parse_json3_captions rest
    | some segs =>
      if pyJoin "" (segs.map (fun sg => sg.utf8.getD "")) ≠ "" then
        ⟨(e.tStartMs.getD 0) / 1000,
         (e.tStartMs.getD 0) / 1000 + (e.dDurationMs.getD 0) / 1000,
         (e.dDurationMs.getD 0) / 1000,
         pyJoin "" (segs.map (fun sg => sg.utf8.getD ""))⟩ :: parse_json3_captions rest
      else parse_json3_captions rest

/-- One subtitle entry of a caption track, as listed by the metadata
library: its encoding tag (`sub.get('ext')`) and download URL. -/
structure SubEntry where
  ext : Option String
  url : String
  deriving DecidableEq, Repr

/-- Embedding of the track-selection step of
`YouTubeCaptionService.extract_captions` (lines 133–143): use the manual
`subtitles` mapping when it is non-empty, otherwise the
`automatic_captions` mapping, then look up the `en` entry; `none` models
the raised no-captions exception. -/
def select_caption_track (subtitles automatic_captions : List (String × List SubEntry)) :
    Option (List SubEntry) :=
  let all_subs := if subtitles ≠ [] then subtitles else automatic_captions
  all_subs.lookup "en"

/-- Embedding of the format-selection loop of
`YouTubeCaptionService.extract_captions` (lines 145–170): walk the track's
entries in list order and take the first whose `ext` is one of `vtt`,
`srv3`, `srv1`, `json3` (the entry whose URL is then downloaded); `none`
models the could-not-download exception. -/
def select_subtitle (en_subs : List SubEntry) : Option SubEntry :=
  en_subs.find? (fun sub =>
    match sub.ext with
    | some e => e = "vtt" ∨ e = "srv3" ∨ e = "srv1" ∨ e = "json3"
    | none => false)

/-- Generic model of `re.sub(pattern, repl, s)` for the patterns used by
`clean_captions`: `m` is the pattern, mapping a (non-empty) suffix of the
text to the length of the match at its head and the replacement text, or
`none` when the pattern does not match there.  The scan is left to right
over non-overlapping matches, exactly as `re.sub` performs it.  Fuel at
least the length of the input suffices because every match is non-empty. -/
def reSub (m : List Char → Option (Nat × List Char)) : Nat → List Char → List Char
  | 0, l => l
  | _ + 1, [] => []
  | fuel + 1, c :: cs =>
    match m (c :: cs) with
    | some (k, rep) => rep ++ reSub m fuel (List.drop k (c :: cs))
    | none => c :: reSub m fuel cs

/-- Run a pattern over a string with enough fuel. -/
def reSubStr (m : List Char → Option (Nat × List Char)) (s : String) : String :=
  ⟨reSub m s.data.length s.data⟩

/-- The pattern `<[^>]+>` (line 373): a `<`, at least one non-`>`
character, then the first following `>`; the match is deleted. -/
def tagMatch : List Char → Option (Nat × List Char)
  | '<' :: rest =>
    let inner := rest.takeWhile (fun c => c ≠ '>')
    if 1 ≤ inner.length ∧ inner.length < rest.length then some (inner.length + 2, [])
    else none
  | _ => none

/-- Consume one expected character. -/
def eatChar (c : Char) : List Char → Option (List Char)
  | x :: r => if x = c then some r else none
  | [] => none

/-- Consume a non-empty run of decimal digits (`\d+`). -/
def eatDigits1 (l : List Char) : Option (List Char) :=
  let d := l.takeWhile Char.isDigit
  if 1 ≤ d.length then some (l.drop d.length) else none

/-- The pattern `\[\d+\.\d+s\s*-\s*\d+\.\d+s\]` (line 374); the match is
deleted.  Each greedy sub-pattern is followed by a character it cannot
consume, so maximal munch needs no backtracking. -/
def tsMatch (l : List Char) : Option (Nat × List Char) := do
  let r ← eatChar '[' l
  let r ← eatDigits1 r
  let r ← eatChar '.' r
  let r ← eatDigits1 r
  let r ← eatChar 's' r
  let r := r.dropWhile pyIsSpace
  let r ← eatChar '-' r
  let r := r.dropWhile pyIsSpace
  let r ← eatDigits1 r
  let r ← eatChar '.' r
  let r ← eatDigits1 r
  let r ← eatChar 's' r
  let r ← eatChar ']' r
  some (l.length - r.length, [])

/-- The pattern `<00:\d+:\d+\.\d+>` (line 375); the match is deleted. -/
def cueTimeMatch (l : List Char) : Option (Nat × List Char) := do
  let r ← eatChar '<' l
  let r ← eatChar '0' r
  let r ← eatChar '0' r
  let r ← eatChar ':' r
  let r ← eatDigits1 r
  let r ← eatChar ':' r
  let r ← eatDigits1 r
  let r ← eatChar '.' r
  let r ← eatDigits1 r
  let r ← eatChar '>' r
  some (l.length - r.length, [])

/-- A literal pattern such as `<c>` or `</c>` (lines 376–377); the match
is deleted. -/
def litMatch (pat : List Char) (l : List Char) : Option (Nat × List Char) :=
  if pat.isPrefixOf l then some (pat.length, []) else none

/-- The pattern `\s+` with replacement `' '` (line 380): a maximal
non-empty whitespace run collapses to a single space. -/
def wsMatch (l : List Char) : Option (Nat × List Char) :=
  let d := l.takeWhile pyIsSpace
  if 1 ≤ d.length then some (d.length, [' ']) else none

/-- Already-collapsed whitespace, adjacency part: no two consecutive
space characters (used to state the idempotence hypothesis on
already-clean text). -/
def noDoubleSpace : List Char → Bool
  | [] => true
  | [_] => true
  | a :: b :: rest => !(a == ' ' && b == ' ') && noDoubleSpace (b :: rest)

/-- Per-segment stage of `YouTubeCaptionService.clean_captions`
(lines 367–382): strip, drop blank text, delete the artifact patterns,
collapse whitespace runs, strip again, and keep the result only when it is
non-empty and longer than 10 characters.  `none` means the segment
contributes nothing to the output. -/
def cleanSegment (raw : String) : Option String :=
  let text₀ := pyStrip raw
  if text₀ = "" then none
  else
    let t₁ := reSubStr tagMatch text₀
    let t₂ := reSubStr tsMatch t₁
    let t₃ := reSubStr cueTimeMatch t₂
    let t₄ := reSubStr (litMatch ['<', 'c', '>']) t₃
    let t₅ := reSubStr (litMatch ['<', '/', 'c', '>']) t₄
    let t := pyStrip (reSubStr wsMatch t₅)
    if t ≠ "" ∧ 10 < t.length then some t else none

/-- Deduplicating accumulation loop of `clean_captions` (lines 364–386):
`seen` is the set of already-seen cleaned strings; a cleaned string
already seen is skipped, otherwise it is appended and recorded. -/
def cleanLoop : List Caption → List String → List String
  | [], _ => []
  | cap :: rest, seen =>
    match cleanSegment cap.text with
    | none => cleanLoop rest seen
    | some t => if t ∈ seen then cleanLoop rest seen else t :: cleanLoop rest (t :: seen)

/-- The `seen_sentences` set of `clean_captions` after processing a
prefix of the caption list, mirroring the updates `cleanLoop` makes. -/
def seenAcc : List Caption → List String → List String
  | [], seen => seen
  | cap :: rest, seen =>
    match cleanSegment cap.text with
    | none => seenAcc rest seen
    | some t => if t ∈ seen then seenAcc rest seen else seenAcc rest (t :: seen)

/-- Embedding of `YouTubeCaptionService.clean_captions` (lines 353–393):
clean each segment, deduplicate by exact string equality keeping the
first occurrence, and join the survivors with single spaces. -/
def clean_captions (captions : List Caption) : String :=
  pyJoin " " (cleanLoop captions [])

/-- The `output_data` dictionary cached and returned by
`extract_captions` (lines 183–190). -/
structure CaptionSet where
  video_title : String
  video_id : String
  video_duration : ℚ
  total_captions : Nat
  format : String
  captions : List Caption
  deriving DecidableEq, Repr

/-- Lookup in an association-list model of a Python dict. -/
def lookupA {α : Type} : List (String × α) → String → Option α
  | [], _ => none
  | (k, v) :: rest, key => if k = key then some v else lookupA rest key

/-- Python `del d[key]`: remove the key's entry. -/
def eraseA {α : Type} (l : List (String × α)) (key : String) : List (String × α) :=
  l.filter (fun p => p.1 ≠ key)

/-- Python `d[key] = v`: replace in place when the key exists, otherwise
append. -/
def insertA {α : Type} (l : List (String × α)) (key : String) (v : α) : List (String × α) :=
  if (lookupA l key).isSome then l.map (fun p => if p.1 = key then (key, v) else p)
  else l ++ [(key, v)]

/-- Embedding of `YouTubeCaptionService._get_cache_key` (lines 68–71).
The source hashes `f"{url}:{output_format}"` with MD5; `hashlib` is an
external collaborator, so the digest is modelled by its preimage string,
which determines it. -/
def get_cache_key (url output_format : String) : String :=
  url ++ ":" ++ output_format

/-- Embedding of `YouTubeCaptionService._is_cache_valid` (lines 73–76)
with `_cache_ttl = 3600` (line 22), at current time `now`. -/
def is_cache_valid (now timestamp : ℚ) : Bool :=
  now - timestamp < 3600

/-- Result of one `extract_captions` call: the returned caption set, the
cache state afterwards, and whether the extraction pipeline (metadata
fetch, download, parsing) ran. -/
structure ExtractOutcome where
  result : CaptionSet
  cache : List (String × CaptionSet × ℚ)
  extracted : Bool
  deriving DecidableEq, Repr

/-- Embedding of the cache layer of `YouTubeCaptionService.extract_captions`
(lines 95–104 and 194–197): the class-level `_cache` dict is passed as
explicit state, `now` is `time.time()`, and a successful run of the
network/parsing pipeline (lines 106–192, all external calls) is modelled
by its result `fresh`.  A hit within the time-to-live returns the cached
data unchanged; a stale entry is deleted and the fresh result is inserted
with the current time. -/
def extract_captions_cached (cache : List (String × CaptionSet × ℚ)) (now : ℚ)
    (url output_format : String) (fresh : CaptionSet) : ExtractOutcome :=
  match lookupA cache (get_cache_key url output_format) with
  | some (data, timestamp) =>
    if is_cache_valid now timestamp then ⟨data, cache, false⟩
    else
      ⟨fresh,
       insertA (eraseA cache (get_cache_key url output_format))
         (get_cache_key url output_format) (fresh, now), true⟩
  | none => ⟨fresh, insertA cache (get_cache_key url output_format) (fresh, now), true⟩

/-- One value of the URL shortener's `url_map`: either the legacy plain
string format or the metadata dictionary written by `shorten_url`
(lines 213–218 of `url_shortener_service.py`). -/
inductive UrlEntry where
  | old (url : String)
  | entry (url : String) (created_at : String) (method : String) (clicks : Nat)
  deriving DecidableEq, Repr

/-- The `data if isinstance(data, str) else data.get('url')` projection
used by `shorten_url` (line 173) and `expand_url` (lines 256–261). -/
def urlOf : UrlEntry → String
  | .old u => u
  | .entry u _ _ _ => u

/-- Embedding of `URLShortenerService.validate_url` (lines 94–104). -/
def validate_url (url : String) : Bool :=
  pyStartsWith "http://" url || pyStartsWith "https://" url

/-- Python `s.rstrip('/')`. -/
def rstripSlash (s : String) : String :=
  ⟨(s.data.reverse.dropWhile (fun c => c = '/')).reverse⟩

/-- Embedding of `URLShortenerService.normalize_custom_domain`
(lines 106–129). -/
def normalize_custom_domain (custom_domain : String) : String :=
  let domain := rstripSlash custom_domain
  let domain :=
    if ¬ (pyStartsWith "http://" domain || pyStartsWith "https://" domain) then
      "https://" ++ domain
    else domain
  if ¬ pyEndsWith "/s" domain then domain ++ "/s/" else domain ++ "/"

/-- Embedding of `URLShortenerService.generate_short_code_random`
(lines 75–92).  The RNG is an external collaborator; `candidates` is the
stream of codes `random.choices` would produce.  At most 100 attempts are
made; `none` models the raised unable-to-generate exception. -/
def generate_short_code_random (url_map : List (String × UrlEntry))
    (candidates : List String) : Option String :=
  (candidates.take 100).find? (fun c => (lookupA url_map c).isNone)

/-- Python truthiness of an optional string argument (`if custom_code:`),
false for both `None` and the empty string. -/
def optTruthy : Option String → Bool
  | none => false
  | some s => s ≠ ""

/-- The scan of `shorten_url` over `url_map.items()` (lines 171–184)
looking for an already-shortened URL: the first code whose entry stores
`long_url`. -/
def find_existing (url_map : List (String × UrlEntry)) (long_url : String) : Option String :=
  (url_map.find? (fun p => urlOf p.2 = long_url)).map (fun p => p.1)

/-- Result dictionary of `shorten_url` / `expand_url`, with the keys the
claims are about (`success`, `short_code`, `short_url`, `long_url`,
`method`, `created_at`, `clicks`, `error`); keys absent from a given
return path are `none`. -/
structure UrlResult where
  success : Bool
  short_code : Option String := none
  short_url : Option String := none
  long_url : Option String := none
  method : Option String := none
  created_at : Option String := none
  clicks : Option Nat := none
  error : Option String := none
  deriving DecidableEq, Repr

/-- The base URL used for the returned short link (lines 158–169 of
`shorten_url`): the normalized custom domain when one was supplied,
otherwise the configured `BASE_URL`. -/
def base_to_use (base_url : String) (custom_domain : Option String) : String :=
  if optTruthy custom_domain then normalize_custom_domain (custom_domain.getD "")
  else base_url

/-- The store-and-return tail of `shorten_url` (lines 212–232): write the
metadata entry for the chosen code into the map (with zero clicks and the
current timestamp) and build the success result. -/
def shorten_store (url_map : List (String × UrlEntry))
    (base_url_to_use nowIso long_url meth short_code : String) :
    UrlResult × List (String × UrlEntry) :=
  ({ success := true, short_code := some short_code,
     short_url := some (base_url_to_use ++ short_code),
     long_url := some long_url, method := some meth,
     created_at := some nowIso },
   insertA url_map short_code (UrlEntry.entry long_url nowIso meth 0))

/-- Embedding of `URLShortenerService.shorten_url` (lines 131–239).
External collaborators are passed as inputs: `hashFn` is the truncated MD5
digest `generate_short_code_hash` would return, `candidates` the RNG
stream of `generate_short_code_random`, `nowIso` the
`datetime.utcnow().isoformat()` timestamp; `save_mappings` (file I/O) is
a no-op on the explicit state.  The stored `method` field is the Python
`custom_code and 'custom' or method`.  Returns the result dictionary and
the `url_map` afterwards. -/
def shorten_url (url_map : List (String × UrlEntry)) (hashFn : String → String)
    (candidates : List String) (base_url : String) (nowIso : String)
    (long_url : String) (method : String)
    (custom_code : Option String) (custom_domain : Option String) :
    UrlResult × List (String × UrlEntry) :=
  if ¬ validate_url long_url then
    ({ success := false, error := some "Invalid URL format" }, url_map)
  else
    match find_existing url_map long_url with
    | some code =>
      ({ success := true, short_code := some code,
         short_url := some (base_to_use base_url custom_domain ++ code),
         long_url := some long_url, method := some "existing" }, url_map)
    | none =>
      if optTruthy custom_code then
        if (lookupA url_map (custom_code.getD "")).isSome then
          ({ success := false, error := some "Custom code already exists" }, url_map)
        else if (custom_code.getD "").length < 3 ∨ 20 < (custom_code.getD "").length then
          ({ success := false, error := some "Custom code must be between 3 and 20 characters" },
           url_map)
        else
          shorten_store url_map (base_to_use base_url custom_domain) nowIso long_url
            (if optTruthy custom_code then "custom" else method) (custom_code.getD "")
      else if method = "hash" then
        match lookupA url_map (hashFn long_url) with
        | some existing =>
          if urlOf existing ≠ long_url then
            match generate_short_code_random url_map candidates with
            | some code =>
              shorten_store url_map (base_to_use base_url custom_domain) nowIso long_url
                (if optTruthy custom_code then "custom" else method) code
            | none => ({ success := false, error := some "Failed to shorten URL" }, url_map)
          else
            shorten_store url_map (base_to_use base_url custom_domain) nowIso long_url
              (if optTruthy custom_code then "custom" else method) (hashFn long_url)
        | none =>
          shorten_store url_map (base_to_use base_url custom_domain) nowIso long_url
            (if optTruthy custom_code then "custom" else method) (hashFn long_url)
      else
        match generate_short_code_random url_map candidates with
        | some code =>
          shorten_store url_map (base_to_use base_url custom_domain) nowIso long_url
            (if optTruthy custom_code then "custom" else method) code
        | none => ({ success := false, error := some "Failed to shorten URL" }, url_map)

/-- Embedding of `URLShortenerService.expand_url` (lines 241–289): a hit
on a legacy string entry returns the URL without touching the map; a hit
on a metadata entry increments its `clicks` field in place; a miss
returns a failure and leaves the map unchanged.  `save_mappings` is a
no-op on the explicit state. -/
def expand_url (url_map : List (String × UrlEntry)) (short_code : String) :
    UrlResult × List (String × UrlEntry) :=
  match lookupA url_map short_code with
  | some (.old u) =>
    ({ success := true, long_url := some u, short_code := some short_code,
       created_at := none, clicks := some 1 }, url_map)
  | some (.entry u ca me k) =>
    ({ success := true, long_url := some u, short_code := some short_code,
       created_at := some ca, clicks := some (k + 1) },
     url_map.map (fun p => if p.1 = short_code then (p.1, UrlEntry.entry u ca me (k + 1)) else p))
  | none => ({ success := false, error := some "Short code not found" }, url_map)

/-! Helper lemmas about the association-list model of Python dicts. -/

theorem lookupA_append_new {α : Type} (l : List (String × α)) (k : String) (v : α)
    (h : lookupA l k = none) : lookupA (l ++ [(k, v)]) k = some v := by
  induction l with
  | nil => simp [lookupA]
  | cons p rest ih =>
    rw [List.cons_append]
    by_cases hk : p.1 = k
    · simp [lookupA, hk] at h
    · simp only [lookupA] at h ⊢
      rw [if_neg hk] at h ⊢
      exact ih h

theorem lookupA_map_replace {α : Type} (l : List (String × α)) (k : String) (v : α)
    (h : (lookupA l k).isSome) :
    lookupA (l.map (fun p => if p.1 = k then (k, v) else p)) k = some v := by
  induction l with
  | nil => simp [lookupA] at h
  | cons p rest ih =>
    obtain ⟨k₀, v₀⟩ := p
    by_cases hk : k₀ = k
    · subst hk
      have hf : (if (k₀, v₀).1 = k₀ then (k₀, v) else (k₀, v₀)) = (k₀, v) := by simp
      rw [List.map_cons, hf]
      simp [lookupA]
    · have hf : (if (k₀, v₀).1 = k then (k, v) else (k₀, v₀)) = (k₀, v₀) := by simp [hk]
      simp only [lookupA, if_neg hk] at h
      rw [List.map_cons, hf]
      simp only [lookupA]
      rw [if_neg hk]
      exact ih h

theorem lookupA_insertA {α : Type} (l : List (String × α)) (k : String) (v : α) :
    lookupA (insertA l k v) k = some v := by
  unfold insertA
  by_cases h : (lookupA l k).isSome
  · rw [if_pos h]
    exact lookupA_map_replace l k v h
  · rw [if_neg h]
    refine lookupA_append_new l k v ?_
    cases hl : lookupA l k with
    | none => rfl
    | some w => rw [hl] at h; simp at h

theorem lookupA_mem {α : Type} {l : List (String × α)} {k : String} {v : α}
    (h : lookupA l k = some v) : (k, v) ∈ l := by
  induction l with
  | nil => simp [lookupA] at h
  | cons p rest ih =>
    by_cases hk : p.1 = k
    · simp only [lookupA, if_pos hk] at h
      obtain ⟨k0, v0⟩ := p
      obtain rfl : k0 = k := hk
      obtain rfl : v0 = v := Option.some.inj h
      exact List.mem_cons_self _ _
    · simp only [lookupA, if_neg hk] at h
      exact List.mem_cons_of_mem _ (ih h)

/-! Claim theorems. -/

/-- C2: the format-selection loop of `extract_captions` is claimed to
download the first encoding in the preference order `vtt`, `srv3`, `srv1`,
`json3`; the code instead downloads the first entry of the track list
whose encoding is any of the four supported tags.  On a track list
containing an `srv3` entry before a `vtt` entry, the `srv3` entry is the
one downloaded, contradicting both the claim and the code's own comment
(`# Find the best format (prefer vtt, then srv3, then others)`). -/
theorem c2_first_supported_entry :
    select_subtitle [⟨some "srv3", "u1"⟩, ⟨some "vtt", "u2"⟩]
      = some ⟨some "srv3", "u1"⟩ := by
  decide

/-- C4 counterexample: with manual captions only in French and an
automatic English track available, track selection raises the no-captions
error (`none`) instead of using the automatic English track, refuting the
claim at this input. -/
theorem c4_counterexample :
    select_caption_track [("fr", [⟨some "vtt", "uf"⟩])] [("en", [⟨some "vtt", "ua"⟩])]
      = none := by
  decide

/-- C4 amended: when the manual `subtitles` mapping is non-empty it is
used exclusively — manual tracks in other languages mask an automatic
English track — so the no-captions error is raised exactly when the
manual mapping is non-empty and lacks English, or both mappings lack it;
when the chosen mapping has English, that track is used. -/
theorem c4_amended_track_selection :
    ∀ subs auto : List (String × List SubEntry),
      (select_caption_track subs auto = none ↔
        ((subs ≠ [] ∧ subs.lookup "en" = none) ∨ (subs = [] ∧ auto.lookup "en" = none))) ∧
      (∀ l, subs.lookup "en" = some l → select_caption_track subs auto = some l) ∧
      (subs = [] → ∀ l, auto.lookup "en" = some l → select_caption_track subs auto = some l) := by
  intro subs auto
  by_cases h : subs = []
  · subst h
    simp [select_caption_track, List.lookup]
  · simp [select_caption_track, h]

/-- C4 witness: an empty manual mapping with an automatic English track
selects the automatic English track. -/
theorem c4_witness :
    select_caption_track [] [("en", [⟨some "vtt", "ua"⟩])] = some [⟨some "vtt", "ua"⟩] :=
  (c4_amended_track_selection [] [("en", [⟨some "vtt", "ua"⟩])]).2.2 rfl _ (by decide)

/-- C5: the time-code decoder replaces `,` by `.` before parsing, splits
on `:`, treats three parts as hours:minutes:seconds, two parts as
minutes:seconds, one part as bare seconds, and in particular decodes
`01:02:03.500` to 3723.5, `02:03.500` to 123.5, `3.5` to 3.5 and
`1:02:03,500` to 3723.5. -/
theorem c5_time_decoder :
    (∀ s h m sec : String, ∀ hq mq sq : ℚ,
        pySplit ":" (pyReplaceChar ',' '.' s) = [h, m, sec] →
        pyParseFloat h = some hq → pyParseFloat m = some mq → pyParseFloat sec = some sq →
        vtt_time_to_seconds s = some (hq * 3600 + mq * 60 + sq)) ∧
    (∀ s m sec : String, ∀ mq sq : ℚ,
        pySplit ":" (pyReplaceChar ',' '.' s) = [m, sec] →
        pyParseFloat m = some mq → pyParseFloat sec = some sq →
        vtt_time_to_seconds s = some (mq * 60 + sq)) ∧
    (∀ s p : String, ∀ q : ℚ,
        pySplit ":" (pyReplaceChar ',' '.' s) = [p] →
        pyParseFloat p = some q →
        vtt_time_to_seconds s = some q) ∧
    vtt_time_to_seconds "01:02:03.500" = some 3723.5 ∧
    vtt_time_to_seconds "02:03.500" = some 123.5 ∧
    vtt_time_to_seconds "3.5" = some 3.5 ∧
    vtt_time_to_seconds "1:02:03,500" = some 3723.5 := by
  refine ⟨?_, ?_, ?_, ?_, ?_, ?_, ?_⟩
  · intro s h m sec hq mq sq hsplit hh hm hs
    unfold vtt_time_to_seconds
    rw [hsplit]
    simp [hh, hm, hs]
  · intro s m sec mq sq hsplit hm hs
    unfold vtt_time_to_seconds
    rw [hsplit]
    simp [hm, hs]
  · intro s p q hsplit hp
    unfold vtt_time_to_seconds
    rw [hsplit]
    simpa using hp
  · have heval : vtt_time_to_seconds "01:02:03.500"
        = some (((1 : ℕ) : ℚ) * 3600 + ((2 : ℕ) : ℚ) * 60 +
            (((3 : ℕ) : ℚ) + ((500 : ℕ) : ℚ) / (10 : ℚ) ^ 3)) := rfl
    rw [heval]
    simp only [Option.some.injEq]
    norm_num
  · have heval : vtt_time_to_seconds "02:03.500"
        = some (((2 : ℕ) : ℚ) * 60 + (((3 : ℕ) : ℚ) + ((500 : ℕ) : ℚ) / (10 : ℚ) ^ 3)) := rfl
    rw [heval]
    simp only [Option.some.injEq]
    norm_num
  · have heval : vtt_time_to_seconds "3.5"
        = some (((3 : ℕ) : ℚ) + ((5 : ℕ) : ℚ) / (10 : ℚ) ^ 1) := rfl
    rw [heval]
    simp only [Option.some.injEq]
    norm_num
  · have heval : vtt_time_to_seconds "1:02:03,500"
        = some (((1 : ℕ) : ℚ) * 3600 + ((2 : ℕ) : ℚ) * 60 +
            (((3 : ℕ) : ℚ) + ((500 : ℕ) : ℚ) / (10 : ℚ) ^ 3)) := rfl
    rw [heval]
    simp only [Option.some.injEq]
    norm_num

/-- C5 witness: the two-part case applied to `02:03.500`. -/
theorem c5_witness :
    vtt_time_to_seconds "02:03.500"
      = some (((2 : ℕ) : ℚ) * 60 + (((3 : ℕ) : ℚ) + ((500 : ℕ) : ℚ) / (10 : ℚ) ^ 3)) :=
  c5_time_decoder.2.1 "02:03.500" "02" "03.500" _ _ rfl rfl rfl

/-- C8: a cache entry younger than the 3600-second time-to-live is
returned as is, with no extraction and no cache change; an entry at or
past the time-to-live is evicted and a fresh extraction runs, its result
stored under the same key with the current time. -/
theorem c8_cache_ttl :
    ∀ (cache : List (String × CaptionSet × ℚ)) (now : ℚ) (url fmt : String)
      (fresh data : CaptionSet) (timestamp : ℚ),
      lookupA cache (get_cache_key url fmt) = some (data, timestamp) →
      ((now - timestamp < 3600 →
          extract_captions_cached cache now url fmt fresh = ⟨data, cache, false⟩) ∧
       (3600 ≤ now - timestamp →
          (extract_captions_cached cache now url fmt fresh).extracted = true ∧
          (extract_captions_cached cache now url fmt fresh).result = fresh ∧
          (extract_captions_cached cache now url fmt fresh).cache =
            insertA (eraseA cache (get_cache_key url fmt)) (get_cache_key url fmt) (fresh, now) ∧
          lookupA (extract_captions_cached cache now url fmt fresh).cache
            (get_cache_key url fmt) = some (fresh, now))) := by
  intro cache now url fmt fresh data timestamp hlook
  constructor
  · intro hyoung
    simp [extract_captions_cached, hlook, is_cache_valid, hyoung]
  · intro hold
    have hvalid : is_cache_valid now timestamp = false := by
      simp [is_cache_valid, not_lt.mpr hold]
    have hstep : extract_captions_cached cache now url fmt fresh
        = ⟨fresh,
           insertA (eraseA cache (get_cache_key url fmt)) (get_cache_key url fmt) (fresh, now),
           true⟩ := by
      simp [extract_captions_cached, hlook, hvalid]
    rw [hstep]
    exact ⟨rfl, rfl, rfl, lookupA_insertA _ _ _⟩

/-! Helper lemmas about stripping, joining and the parsers. -/

theorem string_ne_empty_iff (s : String) : s ≠ "" ↔ s.data ≠ [] := by
  constructor
  · intro h hd
    exact h (String.ext hd)
  · intro h hs
    subst hs
    exact h rfl

theorem dropWhile_head?_false {α : Type} (p : α → Bool) :
    ∀ (l : List α) {c : α}, (l.dropWhile p).head? = some c → p c = false := by
  intro l
  induction l with
  | nil => intro c h; simp at h
  | cons a as ih =>
    intro c h
    rw [List.dropWhile_cons] at h
    by_cases hp : p a
    · rw [if_pos hp] at h
      exact ih h
    · rw [if_neg hp] at h
      have ha : a = c := by simpa using h
      subst ha
      simpa using hp

theorem stripList_ne_nil_mem (l : List Char) (h : pyStripList l ≠ []) :
    ∃ c ∈ pyStripList l, pyIsSpace c = false := by
  unfold pyStripList at h ⊢
  cases hXc : (l.dropWhile pyIsSpace).reverse.dropWhile pyIsSpace with
  | nil => rw [hXc] at h; simp at h
  | cons c cs =>
    refine ⟨c, ?_, ?_⟩
    · exact List.mem_reverse.mpr (List.mem_cons_self _ _)
    · refine dropWhile_head?_false pyIsSpace ((l.dropWhile pyIsSpace).reverse) ?_
      rw [hXc]
      rfl

theorem stripList_eq_nil_all (l : List Char) (h : pyStripList l = []) :
    ∀ c ∈ l, pyIsSpace c = true := by
  unfold pyStripList at h
  rw [List.reverse_eq_nil_iff, List.dropWhile_eq_nil_iff] at h
  intro c hc
  by_cases hdrop : c ∈ l.dropWhile pyIsSpace
  · exact h c (List.mem_reverse.mpr hdrop)
  · have hsplit := List.takeWhile_append_dropWhile pyIsSpace l
    rw [← hsplit] at hc
    rcases List.mem_append.mp hc with h₁ | h₂
    · exact List.mem_takeWhile_imp h₁
    · exact absurd h₂ hdrop

theorem mem_pyJoin_data (sep : String) :
    ∀ (ts : List String) (t : String), t ∈ ts → ∀ c ∈ t.data, c ∈ (pyJoin sep ts).data := by
  intro ts
  induction ts with
  | nil => intro t ht; simp at ht
  | cons a rest ih =>
    intro t ht c hc
    cases rest with
    | nil =>
      have ha : t = a := by simpa using ht
      subst ha
      simpa [pyJoin] using hc
    | cons b rs =>
      rw [show pyJoin sep (a :: b :: rs) = a ++ sep ++ pyJoin sep (b :: rs) from rfl,
        String.data_append, String.data_append]
      rcases List.mem_cons.mp ht with rfl | ht'
      · exact List.mem_append.mpr (Or.inl (List.mem_append.mpr (Or.inl hc)))
      · exact List.mem_append.mpr (Or.inr (ih t ht' c hc))

theorem vttGatherText_mem :
    ∀ lines : List String, ∀ t ∈ (vttGatherText lines).1,
      t ≠ "" ∧ ∃ c ∈ t.data, pyIsSpace c = false := by
  intro lines
  induction lines with
  | nil => intro t ht; simp [vttGatherText] at ht
  | cons l rest ih =>
    intro t ht
    unfold vttGatherText at ht
    by_cases hcond : pyStrip l ≠ "" ∧ containsSubstr "-->" l = false
    · rw [if_pos hcond] at ht
      rcases List.mem_cons.mp ht with rfl | ht'
      · refine ⟨hcond.1, ?_⟩
        have hne : pyStripList l.data ≠ [] := (string_ne_empty_iff _).mp hcond.1
        exact stripList_ne_nil_mem l.data hne
      · exact ih t ht'
    · rw [if_neg hcond] at ht
      simp at ht

theorem pyJoin_strip_ne (ts : List String)
    (hmem : ∀ t ∈ ts, t ≠ "" ∧ ∃ c ∈ t.data, pyIsSpace c = false)
    (hne : pyJoin " " ts ≠ "") : pyStrip (pyJoin " " ts) ≠ "" := by
  cases ts with
  | nil => simp [pyJoin] at hne
  | cons a rest =>
    obtain ⟨-, c, hc, hcs⟩ := hmem a (List.mem_cons_self a rest)
    have hcj : c ∈ (pyJoin " " (a :: rest)).data :=
      mem_pyJoin_data " " (a :: rest) a (List.mem_cons_self _ _) c hc
    rw [string_ne_empty_iff]
    intro hnil
    have hall := stripList_eq_nil_all (pyJoin " " (a :: rest)).data hnil c hcj
    rw [hall] at hcs
    exact Bool.noConfusion hcs

theorem parse_srv_text_ne :
    ∀ (elems : List SrvTextElem) (out : List Caption),
      parse_srv_captions elems = some out → ∀ cap ∈ out, cap.text ≠ "" := by
  intro elems
  induction elems with
  | nil =>
    intro out h cap hc
    obtain rfl := Option.some.inj h
    simp at hc
  | cons e rest ih =>
    intro out h cap hc
    unfold parse_srv_captions at h
    cases hst : attrFloat e.start with
    | none => simp only [hst] at h; exact Option.noConfusion h
    | some st =>
      simp only [hst] at h
      cases hdur : attrFloat e.dur with
      | none => simp only [hdur] at h; exact Option.noConfusion h
      | some dur =>
        simp only [hdur] at h
        cases hrec : parse_srv_captions rest with
        | none => simp only [hrec] at h; exact Option.noConfusion h
        | some tail =>
          simp only [hrec] at h
          obtain rfl := Option.some.inj h
          by_cases htxt : e.text.getD "" ≠ ""
          · rw [if_pos htxt] at hc
            rcases List.mem_cons.mp hc with rfl | hmem
            · exact htxt
            · exact ih tail hrec cap hmem
          · rw [if_neg htxt] at hc
            exact ih tail hrec cap hc

theorem parse_json3_text_ne :
    ∀ events : List Json3Event, ∀ cap ∈ parse_json3_captions events, cap.text ≠ "" := by
  intro events
  induction events with
  | nil => intro cap hc; simp [parse_json3_captions] at hc
  | cons e rest ih =>
    intro cap hc
    unfold parse_json3_captions at hc
    cases hsegs : e.segs with
    | none => simp only [hsegs] at hc; exact ih cap hc
    | some segs =>
      simp only [hsegs] at hc
      by_cases htxt : pyJoin "" (segs.map (fun sg => sg.utf8.getD "")) ≠ ""
      · rw [if_pos htxt] at hc
        rcases List.mem_cons.mp hc with rfl | hmem
        · exact htxt
        · exact ih cap hmem
      · rw [if_neg htxt] at hc
        exact ih cap hc

theorem parseVttLoop_text :
    ∀ (fuel : Nat) (lines : List String) (out : List Caption),
      parseVttLoop fuel lines = some out →
      ∀ cap ∈ out, cap.text ≠ "" ∧ pyStrip cap.text ≠ "" := by
  intro fuel
  induction fuel with
  | zero =>
    intro lines out h cap hc
    obtain rfl : ([] : List Caption) = out := Option.some.inj h
    simp at hc
  | succ fuel ih =>
    intro lines out h cap hc
    cases lines with
    | nil =>
      obtain rfl : ([] : List Caption) = out := Option.some.inj h
      simp at hc
    | cons l rest =>
      unfold parseVttLoop at h
      by_cases hcont : containsSubstr "-->" (pyStrip l) = true
      · rw [if_pos hcont] at h
        by_cases hlen : (pySplit "-->" (pyStrip l)).length = 2
        · rw [if_pos hlen] at h
          cases hst : vtt_time_to_seconds (pyStrip ((pySplit "-->" (pyStrip l)).getD 0 "")) with
          | none => simp only [hst] at h; exact Option.noConfusion h
          | some st =>
            simp only [hst] at h
            cases htok : (pySplitWs (pyStrip ((pySplit "-->" (pyStrip l)).getD 1 ""))).head? with
            | none => simp only [htok] at h; exact Option.noConfusion h
            | some tok =>
              simp only [htok] at h
              cases het : vtt_time_to_seconds tok with
              | none => simp only [het] at h; exact Option.noConfusion h
              | some et =>
                simp only [het] at h
                cases hrec : parseVttLoop fuel ((vttGatherText rest).2.drop 1) with
                | none => simp only [hrec] at h; exact Option.noConfusion h
                | some tail =>
                  simp only [hrec] at h
                  obtain rfl := Option.some.inj h
                  by_cases htext : pyJoin " " (vttGatherText rest).1 ≠ ""
                  · rw [if_pos htext] at hc
                    rcases List.mem_cons.mp hc with rfl | hmem
                    · exact ⟨htext, pyJoin_strip_ne _ (vttGatherText_mem rest) htext⟩
                    · exact ih _ tail hrec cap hmem
                  · rw [if_neg htext] at hc
                    exact ih _ tail hrec cap hc
        · rw [if_neg hlen] at h
          exact ih rest out h cap hc
      · rw [if_neg hcont] at h
        exact ih rest out h cap hc

/-- C1 counterexample: a cue block whose middle cue has an unparsable
timestamp (`abc`) makes the whole parse fail, returning no captions at
all, although it is surrounded by well-formed cues — refuting the claim
that only the offending cue is skipped. -/
theorem c1_counterexample :
    parse_vtt_captions
      "00:00:01.000 --> 00:00:03.000\nHello there\n\nabc --> 00:00:05.000\nOops\n\n00:00:06.000 --> 00:00:07.000\nStill here"
      = none := by
  decide

/-- C1 amended: a failed numeric parse of a cue timestamp raises an
uncaught error that aborts the entire cue-block parse — no captions are
returned, the well-formed cues before the offending one and whatever
follows it included. -/
theorem c1_amended_abort :
    ∀ rest : List String,
      parse_vtt_lines
        ("00:00:01.000 --> 00:00:03.000" :: "Hello there" :: "" ::
          "abc --> 00:00:05.000" :: rest) = none := by
  intro rest
  rfl

/-- C3 counterexample: the XML parser accepts a `<text>` element whose
body is a single space and returns a segment whose text is that space —
a produced segment whose text trims to the empty string, refuting the
shared edge-case claim. -/
theorem c3_counterexample :
    (parse_srv_captions [⟨some "0", some "1", some " "⟩]).map (List.map Caption.text)
      = some [" "] ∧ pyStrip " " = "" := by
  decide

/-- C3 amended: all three parsers only ever emit segments whose text is a
non-empty string (the guards test raw non-emptiness, not trimmed
non-emptiness); the cue-block parser's segments additionally have
non-empty text after trimming, but the XML and JSON3 parsers may emit
whitespace-only text. -/
theorem c3_amended_nonempty_text :
    (∀ (elems : List SrvTextElem) (out : List Caption),
        parse_srv_captions elems = some out → ∀ cap ∈ out, cap.text ≠ "") ∧
    (∀ events : List Json3Event, ∀ cap ∈ parse_json3_captions events, cap.text ≠ "") ∧
    (∀ (s : String) (out : List Caption),
        parse_vtt_captions s = some out → ∀ cap ∈ out, cap.text ≠ "" ∧ pyStrip cap.text ≠ "") :=
  ⟨parse_srv_text_ne, parse_json3_text_ne,
   fun s out h => parseVttLoop_text (pySplit "\n" s).length (pySplit "\n" s) out h⟩

/-- C3 witness: the XML-parser conjunct applied to one concrete element. -/
theorem c3_witness : (⟨0, 0 + 0, 0, "x hello"⟩ : Caption).text ≠ "" :=
  c3_amended_nonempty_text.1 [⟨none, none, some "x hello"⟩] [⟨0, 0 + 0, 0, "x hello"⟩] rfl
    ⟨0, 0 + 0, 0, "x hello"⟩ (List.mem_singleton_self _)

/-- C8 witness: a stale entry (age 5000 seconds) triggers extraction. -/
theorem c8_witness :
    (extract_captions_cached [("u:txt", ⟨"t", "id", 10, 0, "vtt", []⟩, 0)] 5000 "u" "txt"
      ⟨"t", "id", 10, 1, "vtt", [⟨0, 1, 1, "hi"⟩]⟩).extracted = true :=
  ((c8_cache_ttl [("u:txt", ⟨"t", "id", 10, 0, "vtt", []⟩, 0)] 5000 "u" "txt"
      ⟨"t", "id", 10, 1, "vtt", [⟨0, 1, 1, "hi"⟩]⟩ ⟨"t", "id", 10, 0, "vtt", []⟩ 0
      rfl).2 (by norm_num)).1

/-! Helper lemmas about the cleaner. -/

theorem cleanLoop_cons (cap : Caption) (rest : List Caption) (seen : List String) :
    cleanLoop (cap :: rest) seen =
      match cleanSegment cap.text with
      | none => cleanLoop rest seen
      | some t => if t ∈ seen then cleanLoop rest seen else t :: cleanLoop rest (t :: seen) :=
  rfl

theorem seenAcc_cons (cap : Caption) (rest : List Caption) (seen : List String) :
    seenAcc (cap :: rest) seen =
      match cleanSegment cap.text with
      | none => seenAcc rest seen
      | some t => if t ∈ seen then seenAcc rest seen else seenAcc rest (t :: seen) :=
  rfl

theorem cleanLoop_append (l₁ : List Caption) :
    ∀ (l₂ : List Caption) (seen : List String),
      cleanLoop (l₁ ++ l₂) seen = cleanLoop l₁ seen ++ cleanLoop l₂ (seenAcc l₁ seen) := by
  induction l₁ with
  | nil => intro l₂ seen; simp [cleanLoop, seenAcc]
  | cons cap rest ih =>
    intro l₂ seen
    rw [List.cons_append]
    simp only [cleanLoop_cons, seenAcc_cons]
    cases hseg : cleanSegment cap.text with
    | none =>
      simp only [hseg]
      exact ih l₂ seen
    | some t =>
      simp only [hseg]
      by_cases hmem : t ∈ seen
      · rw [if_pos hmem, if_pos hmem, if_pos hmem]
        exact ih l₂ seen
      · rw [if_neg hmem, if_neg hmem, if_neg hmem, ih l₂ (t :: seen), List.cons_append]

theorem mem_seenAcc (s : String) :
    ∀ (l : List Caption) (seen : List String), s ∈ seen → s ∈ seenAcc l seen := by
  intro l
  induction l with
  | nil => intro seen h; exact h
  | cons cap rest ih =>
    intro seen h
    rw [seenAcc_cons]
    cases hseg : cleanSegment cap.text with
    | none =>
      simp only [hseg]
      exact ih seen h
    | some t =>
      simp only [hseg]
      by_cases hmem : t ∈ seen
      · rw [if_pos hmem]
        exact ih seen h
      · rw [if_neg hmem]
        exact ih _ (List.mem_cons_of_mem _ h)

theorem seenAcc_append (l₁ : List Caption) :
    ∀ (l₂ : List Caption) (seen : List String),
      seenAcc (l₁ ++ l₂) seen = seenAcc l₂ (seenAcc l₁ seen) := by
  induction l₁ with
  | nil => intro l₂ seen; simp [seenAcc]
  | cons cap rest ih =>
    intro l₂ seen
    rw [List.cons_append]
    simp only [seenAcc_cons]
    cases hseg : cleanSegment cap.text with
    | none =>
      simp only [hseg]
      exact ih l₂ seen
    | some t =>
      simp only [hseg]
      by_cases hmem : t ∈ seen
      · rw [if_pos hmem, if_pos hmem]
        exact ih l₂ seen
      · rw [if_neg hmem, if_neg hmem]
        exact ih l₂ (t :: seen)

theorem seenAcc_of_cleanSegment {a : Caption} {t : String} (h : cleanSegment a.text = some t) :
    ∀ (l₁ l₂ : List Caption) (seen : List String), t ∈ seenAcc (l₁ ++ a :: l₂) seen := by
  intro l₁ l₂ seen
  rw [seenAcc_append l₁ (a :: l₂) seen, seenAcc_cons]
  simp only [h]
  by_cases hmem : t ∈ seenAcc l₁ seen
  · rw [if_pos hmem]
    exact mem_seenAcc t l₂ _ hmem
  · rw [if_neg hmem]
    exact mem_seenAcc t l₂ _ (List.mem_cons_self _ _)

/-- C6: duplicate cleaned text is dropped, first occurrence wins — a
later segment whose cleaned text (after artifact stripping, whitespace
collapsing and the length filter) equals, by exact string equality, that
of an earlier surviving segment contributes nothing: deleting it leaves
the output unchanged. -/
theorem c6_dedup_first_wins :
    ∀ (pre mid post : List Caption) (a b : Caption) (t : String),
      cleanSegment a.text = some t → cleanSegment b.text = some t →
      clean_captions (pre ++ a :: mid ++ b :: post) = clean_captions (pre ++ a :: mid ++ post) := by
  intro pre mid post a b t ha hb
  unfold clean_captions
  have h₁ : pre ++ a :: mid ++ b :: post = (pre ++ a :: mid) ++ (b :: post) := by simp
  have h₂ : pre ++ a :: mid ++ post = (pre ++ a :: mid) ++ post := by simp
  have hsuffix : cleanLoop (b :: post) (seenAcc (pre ++ a :: mid) [])
      = cleanLoop post (seenAcc (pre ++ a :: mid) []) := by
    rw [cleanLoop_cons]
    simp only [hb]
    rw [if_pos (seenAcc_of_cleanSegment ha pre mid [])]
  have hL : cleanLoop ((pre ++ a :: mid) ++ (b :: post)) []
      = cleanLoop (pre ++ a :: mid) [] ++ cleanLoop post (seenAcc (pre ++ a :: mid) []) := by
    rw [cleanLoop_append, hsuffix]
  have hR : cleanLoop ((pre ++ a :: mid) ++ post) []
      = cleanLoop (pre ++ a :: mid) [] ++ cleanLoop post (seenAcc (pre ++ a :: mid) []) := by
    rw [cleanLoop_append]
  rw [h₁, h₂, hL, hR]

/-- C6 witness: two segments with the same cleaned text collapse to one. -/
theorem c6_witness :
    clean_captions [⟨0, 1, 1, "hello world today"⟩, ⟨1, 2, 1, "hello world today"⟩]
      = clean_captions [⟨0, 1, 1, "hello world today"⟩] := by
  simpa using
    c6_dedup_first_wins [] [] [] ⟨0, 1, 1, "hello world today"⟩ ⟨1, 2, 1, "hello world today"⟩
      "hello world today" (by decide) (by decide)

/-! Helper lemmas for idempotence of the cleaner on already-clean text. -/

theorem reSub_id (m : List Char → Option (Nat × List Char)) :
    ∀ l : List Char, (∀ i < l.length, m (l.drop i) = none) → reSub m l.length l = l := by
  intro l
  induction l with
  | nil => intro _; rfl
  | cons c cs ih =>
    intro h
    have h0 : m (c :: cs) = none := by simpa using h 0 (Nat.succ_pos _)
    show reSub m (cs.length + 1) (c :: cs) = c :: cs
    unfold reSub
    simp only [h0]
    congr 1
    refine ih ?_
    intro i hi
    have := h (i + 1) (Nat.succ_lt_succ hi)
    simpa using this

theorem noDoubleSpace_tail {c : Char} {cs : List Char}
    (h : noDoubleSpace (c :: cs) = true) : noDoubleSpace cs = true := by
  cases cs with
  | nil => rfl
  | cons d ds =>
    have h' : (!(c == ' ' && d == ' ') && noDoubleSpace (d :: ds)) = true := h
    exact (Bool.and_eq_true_iff.mp h').2

theorem reSub_ws_id :
    ∀ l : List Char, (∀ c ∈ l, pyIsSpace c = true → c = ' ') →
      noDoubleSpace l = true → reSub wsMatch l.length l = l := by
  intro l
  induction l with
  | nil => intro _ _; rfl
  | cons c cs ih =>
    intro hws hch
    show reSub wsMatch (cs.length + 1) (c :: cs) = c :: cs
    have hchTail : noDoubleSpace cs = true := noDoubleSpace_tail hch
    have hwsTail : ∀ d ∈ cs, pyIsSpace d = true → d = ' ' :=
      fun d hd => hws d (List.mem_cons_of_mem _ hd)
    by_cases hsp : pyIsSpace c = true
    · have hc : c = ' ' := hws c (List.mem_cons_self _ _) hsp
      subst hc
      have htw : cs.takeWhile pyIsSpace = [] := by
        cases cs with
        | nil => rfl
        | cons d ds =>
          have h' : (!(' ' == ' ' && d == ' ') && noDoubleSpace (d :: ds)) = true := hch
          have hd : ¬ d = ' ' := by
            intro hd'
            subst hd'
            simp at h'
          have hpd : pyIsSpace d = false := by
            cases h2 : pyIsSpace d with
            | false => rfl
            | true => exact absurd (hwsTail d (List.mem_cons_self _ _) h2) hd
          rw [List.takeWhile_cons, hpd]
          simp
      have hmatch : wsMatch (' ' :: cs) = some (1, [' ']) := by
        simp [wsMatch, List.takeWhile_cons, htw, show pyIsSpace ' ' = true from rfl]
      unfold reSub
      simp only [hmatch, List.drop_succ_cons, List.drop_zero, List.singleton_append]
      congr 1
      exact ih hwsTail hchTail
    · have hpc : pyIsSpace c = false := by
        cases h2 : pyIsSpace c with
        | false => rfl
        | true => exact absurd h2 hsp
      have hmatch : wsMatch (c :: cs) = none := by
        simp [wsMatch, List.takeWhile_cons, hpc]
      unfold reSub
      simp only [hmatch]
      congr 1
      exact ih hwsTail hchTail

theorem dropWhile_id_of_head {α : Type} (p : α → Bool) (l : List α)
    (h : ∀ c, l.head? = some c → p c = false) : l.dropWhile p = l := by
  cases l with
  | nil => rfl
  | cons a as =>
    rw [List.dropWhile_cons, h a rfl]
    simp

theorem pyStripList_id (l : List Char)
    (h₁ : ∀ c, l.head? = some c → pyIsSpace c = false)
    (h₂ : ∀ c, l.getLast? = some c → pyIsSpace c = false) : pyStripList l = l := by
  unfold pyStripList
  rw [dropWhile_id_of_head pyIsSpace l h₁]
  rw [dropWhile_id_of_head pyIsSpace l.reverse
    (by intro c hc; exact h₂ c (by rwa [List.head?_reverse] at hc))]
  exact List.reverse_reverse l

/-- C7: the cleaner is the identity on a single segment whose text is
already clean — length at least 11, no substring matching any of the
artifact patterns, every whitespace character a single space with no two
adjacent, and no leading or trailing whitespace. -/
theorem c7_clean_idempotent :
    ∀ (st et d : ℚ) (s : String),
      11 ≤ s.length →
      (∀ c ∈ s.data, pyIsSpace c = true → c = ' ') →
      noDoubleSpace s.data = true →
      (∀ c, s.data.head? = some c → pyIsSpace c = false) →
      (∀ c, s.data.getLast? = some c → pyIsSpace c = false) →
      (∀ i < s.data.length,
        tagMatch (s.data.drop i) = none ∧ tsMatch (s.data.drop i) = none ∧
        cueTimeMatch (s.data.drop i) = none ∧
        litMatch ['<', 'c', '>'] (s.data.drop i) = none ∧
        litMatch ['<', '/', 'c', '>'] (s.data.drop i) = none) →
      clean_captions [⟨st, et, d, s⟩] = s := by
  intro st et d s hlen hws hch hhead hlast hnom
  have hstrip : pyStrip s = s := String.ext (pyStripList_id s.data hhead hlast)
  have hne : s ≠ "" := by
    rw [string_ne_empty_iff]
    intro hnil
    rw [show s.length = s.data.length from rfl, hnil] at hlen
    simp at hlen
  have hsub : ∀ m, (∀ i < s.data.length, m (s.data.drop i) = none) → reSubStr m s = s :=
    fun m hm => String.ext (reSub_id m s.data hm)
  have h₁ : reSubStr tagMatch s = s := hsub _ (fun i hi => (hnom i hi).1)
  have h₂ : reSubStr tsMatch s = s := hsub _ (fun i hi => (hnom i hi).2.1)
  have h₃ : reSubStr cueTimeMatch s = s := hsub _ (fun i hi => (hnom i hi).2.2.1)
  have h₄ : reSubStr (litMatch ['<', 'c', '>']) s = s := hsub _ (fun i hi => (hnom i hi).2.2.2.1)
  have h₅ : reSubStr (litMatch ['<', '/', 'c', '>']) s = s :=
    hsub _ (fun i hi => (hnom i hi).2.2.2.2)
  have hws' : reSubStr wsMatch s = s := String.ext (reSub_ws_id s.data hws hch)
  have hseg : cleanSegment s = some s := by
    simp only [cleanSegment]
    rw [hstrip, h₁, h₂, h₃, h₄, h₅, hws', hstrip]
    rw [if_neg hne, if_pos ⟨hne, lt_of_lt_of_le (by norm_num) hlen⟩]
  have hloop : cleanLoop [(⟨st, et, d, s⟩ : Caption)] [] = [s] := by
    simp [cleanLoop, hseg]
  unfold clean_captions
  rw [hloop]
  rfl

/-- C7 witness: an already-clean 17-character text reproduces itself. -/
theorem c7_witness : clean_captions [⟨0, 1, 1, "hello world again"⟩] = "hello world again" :=
  c7_clean_idempotent 0 1 1 "hello world again" (by decide) (by decide) (by decide)
    (by intro c hc; cases hc; decide) (by intro c hc; cases hc; decide) (by decide)

/-! Helper lemmas for the URL shortener. -/

theorem lookupA_of_mem_nodup {α : Type} :
    ∀ (m : List (String × α)) (k : String) (v : α),
      (m.map Prod.fst).Nodup → (k, v) ∈ m → lookupA m k = some v := by
  intro m
  induction m with
  | nil => intro k v _ h; simp at h
  | cons p rest ih =>
    intro k v hnd hmem
    obtain ⟨k₀, v₀⟩ := p
    rw [List.map_cons] at hnd
    have hnd' := List.nodup_cons.mp hnd
    rcases List.mem_cons.mp hmem with heq | hmem'
    · injection heq with hk hv
      subst hk
      subst hv
      simp [lookupA]
    · by_cases hk : k₀ = k
      · exfalso
        subst hk
        exact hnd'.1 (List.mem_map.mpr ⟨(k₀, v), hmem', rfl⟩)
      · simp only [lookupA]
        rw [if_neg hk]
        exact ih k v hnd'.2 hmem'

theorem find_existing_some {m : List (String × UrlEntry)} {u c : String}
    (h : find_existing m u = some c) : ∃ e, (c, e) ∈ m ∧ urlOf e = u := by
  unfold find_existing at h
  cases hf : m.find? (fun p => urlOf p.2 = u) with
  | none => rw [hf] at h; simp at h
  | some p =>
    rw [hf] at h
    obtain ⟨k₀, e⟩ := p
    have hk : k₀ = c := by simpa using h
    subst hk
    refine ⟨e, List.mem_of_find?_eq_some hf, ?_⟩
    have hp := List.find?_some hf
    simpa using hp

theorem expand_url_of_lookup {m : List (String × UrlEntry)} {c : String} {e : UrlEntry}
    (h : lookupA m c = some e) :
    (expand_url m c).1.success = true ∧ (expand_url m c).1.long_url = some (urlOf e) := by
  unfold expand_url
  cases e with
  | old u => simp [h, urlOf]
  | entry u ca me k => simp [h, urlOf]

theorem shorten_store_lookup (url_map : List (String × UrlEntry))
    (base nowIso long meth code : String) {res : UrlResult} {m' : List (String × UrlEntry)}
    (h : shorten_store url_map base nowIso long meth code = (res, m')) {c : String}
    (hcode : res.short_code = some c) :
    ∃ e, lookupA m' c = some e ∧ urlOf e = long := by
  unfold shorten_store at h
  injection h with h₁ h₂
  subst h₂
  rw [← h₁] at hcode
  have hc : code = c := by simpa using hcode
  subst hc
  exact ⟨UrlEntry.entry long nowIso meth 0, lookupA_insertA _ _ _, rfl⟩

theorem shorten_url_success_lookup
    {m : List (String × UrlEntry)} {hashFn : String → String} {cands : List String}
    {base nowIso long method : String} {cc cd : Option String}
    {res : UrlResult} {m' : List (String × UrlEntry)} {c : String}
    (hnd : (m.map Prod.fst).Nodup)
    (hrun : shorten_url m hashFn cands base nowIso long method cc cd = (res, m'))
    (hcode : res.short_code = some c) :
    ∃ e, lookupA m' c = some e ∧ urlOf e = long := by
  unfold shorten_url at hrun
  by_cases hval : ¬ validate_url long = true
  · rw [if_pos hval] at hrun
    injection hrun with h₁ h₂
    rw [← h₁] at hcode
    exact Option.noConfusion hcode
  · rw [if_neg hval] at hrun
    cases hfe : find_existing m long with
    | some code =>
      simp only [hfe] at hrun
      injection hrun with h₁ h₂
      subst h₂
      rw [← h₁] at hcode
      have hc : code = c := by simpa using hcode
      subst hc
      obtain ⟨e, hmem, hurl⟩ := find_existing_some hfe
      exact ⟨e, lookupA_of_mem_nodup _ _ e hnd hmem, hurl⟩
    | none =>
      simp only [hfe] at hrun
      by_cases hct : optTruthy cc = true
      · rw [if_pos hct] at hrun
        by_cases hex : (lookupA m (cc.getD "")).isSome = true
        · rw [if_pos hex] at hrun
          injection hrun with h₁ h₂
          rw [← h₁] at hcode
          exact Option.noConfusion hcode
        · rw [if_neg hex] at hrun
          by_cases hlen : (cc.getD "").length < 3 ∨ 20 < (cc.getD "").length
          · rw [if_pos hlen] at hrun
            injection hrun with h₁ h₂
            rw [← h₁] at hcode
            exact Option.noConfusion hcode
          · rw [if_neg hlen] at hrun
            exact shorten_store_lookup _ _ _ _ _ _ hrun hcode
      · rw [if_neg hct] at hrun
        by_cases hmeth : method = "hash"
        · rw [if_pos hmeth] at hrun
          cases hlk : lookupA m (hashFn long) with
          | some existing =>
            simp only [hlk] at hrun
            by_cases hdiff : urlOf existing ≠ long
            · rw [if_pos hdiff] at hrun
              cases hrand : generate_short_code_random m cands with
              | some code =>
                simp only [hrand] at hrun
                exact shorten_store_lookup _ _ _ _ _ _ hrun hcode
              | none =>
                simp only [hrand] at hrun
                injection hrun with h₁ h₂
                rw [← h₁] at hcode
                exact Option.noConfusion hcode
            · rw [if_neg hdiff] at hrun
              exact shorten_store_lookup _ _ _ _ _ _ hrun hcode
          | none =>
            simp only [hlk] at hrun
            exact shorten_store_lookup _ _ _ _ _ _ hrun hcode
        · rw [if_neg hmeth] at hrun
          cases hrand : generate_short_code_random m cands with
          | some code =>
            simp only [hrand] at hrun
            exact shorten_store_lookup _ _ _ _ _ _ hrun hcode
          | none =>
            simp only [hrand] at hrun
            injection hrun with h₁ h₂
            rw [← h₁] at hcode
            exact Option.noConfusion hcode

/-- C9: round-trip — whenever `shorten_url` succeeds on an `http://` or
`https://` URL and returns a short code, `expand_url` applied to that
code on the resulting map succeeds and returns exactly the original long
URL. -/
theorem c9_roundtrip :
    ∀ (m : List (String × UrlEntry)) (hashFn : String → String) (cands : List String)
      (base nowIso long method : String) (cc cd : Option String)
      (res : UrlResult) (m' : List (String × UrlEntry)) (c : String),
      (m.map Prod.fst).Nodup →
      (pyStartsWith "http://" long || pyStartsWith "https://" long) = true →
      shorten_url m hashFn cands base nowIso long method cc cd = (res, m') →
      res.success = true → res.short_code = some c →
      (expand_url m' c).1.success = true ∧ (expand_url m' c).1.long_url = some long := by
  intro m hashFn cands base nowIso long method cc cd res m' c hnd _ hrun _ hcode
  obtain ⟨e, hle, hue⟩ := shorten_url_success_lookup hnd hrun hcode
  have h := expand_url_of_lookup hle
  exact ⟨h.1, by rw [h.2, hue]⟩

/-- C9 witness: shortening a fresh URL with the hash method on an empty
map and expanding the returned code recovers the URL. -/
theorem c9_witness :
    (expand_url (shorten_url [] (fun _ => "abc123") [] "https://s.ly/" "t0"
        "https://example.com/page" "hash" none none).2 "abc123").1.long_url
      = some "https://example.com/page" :=
  (c9_roundtrip [] (fun _ => "abc123") [] "https://s.ly/" "t0" "https://example.com/page"
    "hash" none none _ _ "abc123" (by decide) (by decide) rfl rfl rfl).2

theorem lookupA_update_self {m : List (String × UrlEntry)} {c : String} {e : UrlEntry}
    (h : lookupA m c = some e) (e' : UrlEntry) :
    lookupA (m.map (fun p => if p.1 = c then (p.1, e') else p)) c = some e' := by
  induction m with
  | nil => simp [lookupA] at h
  | cons p rest ih =>
    obtain ⟨k₀, v₀⟩ := p
    by_cases hk : k₀ = c
    · subst hk
      have hf : (if (k₀, v₀).1 = k₀ then ((k₀, v₀).1, e') else (k₀, v₀)) = (k₀, e') := by simp
      rw [List.map_cons, hf]
      simp [lookupA]
    · have hf : (if (k₀, v₀).1 = c then ((k₀, v₀).1, e') else (k₀, v₀)) = (k₀, v₀) := by
        simp [hk]
      simp only [lookupA, if_neg hk] at h
      rw [List.map_cons, hf]
      simp only [lookupA]
      rw [if_neg hk]
      exact ih h

theorem lookupA_update_ne {c : String} (e' : UrlEntry) {c₂ : String} (hne : c₂ ≠ c) :
    ∀ m : List (String × UrlEntry),
      lookupA (m.map (fun p => if p.1 = c then (p.1, e') else p)) c₂ = lookupA m c₂ := by
  intro m
  induction m with
  | nil => rfl
  | cons p rest ih =>
    obtain ⟨k₀, v₀⟩ := p
    by_cases hk : k₀ = c
    · subst hk
      have hf : (if (k₀, v₀).1 = k₀ then ((k₀, v₀).1, e') else (k₀, v₀)) = (k₀, e') := by simp
      rw [List.map_cons, hf]
      simp only [lookupA]
      have hne' : ¬ k₀ = c₂ := fun h => hne h.symm
      rw [if_neg hne', if_neg hne']
      exact ih
    · have hf : (if (k₀, v₀).1 = c then ((k₀, v₀).1, e') else (k₀, v₀)) = (k₀, v₀) := by
        simp [hk]
      rw [List.map_cons, hf]
      simp only [lookupA]
      by_cases hk₂ : k₀ = c₂
      · rw [if_pos hk₂, if_pos hk₂]
      · rw [if_neg hk₂, if_neg hk₂]
        exact ih

/-- C10: frame conditions of `expand_url` — on a hit of a metadata entry
it succeeds, increments exactly that entry's `clicks` by one (leaving its
`url`, `created_at` and `method` fields unchanged) and leaves every other
mapping untouched; on a missing code it fails and leaves the whole map
unchanged. -/
theorem c10_expand_frame :
    ∀ (m : List (String × UrlEntry)) (c : String),
      (∀ u ca me k, lookupA m c = some (UrlEntry.entry u ca me k) →
        (expand_url m c).1.success = true ∧
        (expand_url m c).1.clicks = some (k + 1) ∧
        lookupA (expand_url m c).2 c = some (UrlEntry.entry u ca me (k + 1)) ∧
        (∀ c₂, c₂ ≠ c → lookupA (expand_url m c).2 c₂ = lookupA m c₂)) ∧
      (lookupA m c = none →
        (expand_url m c).1.success = false ∧ (expand_url m c).2 = m) := by
  intro m c
  constructor
  · intro u ca me k h
    have hstep : expand_url m c
        = ({ success := true, long_url := some u, short_code := some c,
             created_at := some ca, clicks := some (k + 1) },
           m.map (fun p => if p.1 = c then (p.1, UrlEntry.entry u ca me (k + 1)) else p)) := by
      unfold expand_url
      simp only [h]
    rw [hstep]
    exact ⟨rfl, rfl, lookupA_update_self h _, fun c₂ hne => lookupA_update_ne _ hne m⟩
  · intro h
    have hstep : expand_url m c
        = ({ success := false, error := some "Short code not found" }, m) := by
      unfold expand_url
      simp only [h]
    rw [hstep]
    exact ⟨rfl, rfl⟩

/-- C10 witness: expanding an existing metadata entry succeeds. -/
theorem c10_witness :
    (expand_url [("abc", UrlEntry.entry "https://e.com/x" "t0" "hash" 0)] "abc").1.success
      = true :=
  ((c10_expand_frame [("abc", UrlEntry.entry "https://e.com/x" "t0" "hash" 0)] "abc").1
    "https://e.com/x" "t0" "hash" 0 rfl).1
